import Mathlib

/-!
Verification development for `mindif_import.py` (MinDIF dataset processor).

The script is Python 2.  Machine arithmetic is modelled as follows:

* Python ints are modelled by `ℤ` (or `ℕ` for quantities that are
  non-negative by construction); Python 2 `/` on two ints is floor
  division, modelled by `Nat`/`Int` division (all divisions below have
  non-negative operands, where `Int` T-division and floor division agree).
* Python floats are modelled exactly by `ℚ`; the expressions involved are
  small products/quotients of input integers, and no claim depends on
  binary rounding error.
* Python 2 `round` rounds half away from zero; `int(...)` on a
  non-negative float is `Int.floor`.
* Fallible steps (a Python `KeyError` on a dict subscript) are modelled
  with `Except`.
-/

/-- Python 2 `round`: rounds to the nearest integer, halves away from zero.
This differs from Mathlib `round` (which rounds halves up) on negative
half-integers only. -/
def pyRound (q : ℚ) : ℤ := if 0 ≤ q then ⌊q + 1/2⌋ else -⌊-q + 1/2⌋

/-- Characterisation of the rationals that are an integer plus one half,
the values where rounding halves away from zero and translation by an
integer interact. -/
def IsHalfInt (q : ℚ) : Prop := (q - 1/2).den = 1

instance : DecidablePred IsHalfInt := fun q => by
  unfold IsHalfInt; infer_instance

/-- Scan geometry read from `measurement.xml` (all values parsed with
`int(...)` in the source, hence natural numbers for this instrument data). -/
structure Measurement where
  view_field_um : ℕ
  image_width_px : ℕ
  image_height_px : ℕ
  sample_diameter_um : ℕ
  deriving DecidableEq, Repr

/-- Source line 257: `pixel_spacing = float(view_field_um) / float(image_width_px)`. -/
def pixel_spacing (m : Measurement) : ℚ :=
  (m.view_field_um : ℚ) / (m.image_width_px : ℚ)

/-- Source line 225:
`diameter_px = int((sample_diameter_um / float(view_field_um)) * image_width_px)`.
The quotient is non-negative, so Python `int(...)` truncation is `Int.floor`. -/
def diameter_px (m : Measurement) : ℤ :=
  ⌊((m.sample_diameter_um : ℚ) / (m.view_field_um : ℚ)) * (m.image_width_px : ℚ)⌋

/-- Source line 256: `origin = (field_size[0]/2, field_size[1]/2)` with
`field_size = (diameter_px, diameter_px)`; Python 2 int division. -/
def origin (m : Measurement) : ℤ × ℤ :=
  (diameter_px m / 2, diameter_px m / 2)

/-- Source lines 273-274, the body of the fields loop: converts a physical
field offset `(dx, dy)` in micrometres into canvas pixel coordinates.
`image_width_px / 2` and `image_height_px / 2` are Python 2 integer
divisions, as in the source. -/
def fieldXY (m : Measurement) (dx dy : ℚ) : ℤ × ℤ :=
  (pyRound (-dx / pixel_spacing m + ((origin m).1 : ℚ) - ((m.image_width_px / 2 : ℕ) : ℚ)),
   pyRound (dy / pixel_spacing m + ((origin m).2 : ℚ) - ((m.image_height_px / 2 : ℕ) : ℚ)))

/-!
Phase catalog (source lines 172-206).  `phases.xml` yields a sequence of
phase records; records flagged `background="yes"` are skipped; the rest are
stored in the Python dict `phase_map` keyed by integer id.  The dict is
modelled as an association list kept sorted by key; dict assignment
overwrites the value of an existing key in place.  Every claim settled
against this representation depends only on its key-value content (lookup,
overwriting assignment, per-key increment, histogram totals), never on the
position of an entry in the list.  The dict ITERATION order, which in
CPython 2 is hash-driven and matters only for the legend tie-break, is
modelled separately (`pyDictItemsSmall` below).
-/

/-- Colour triple as parsed from the hex string (source lines 197-200). -/
abbrev Colour := ℕ × ℕ × ℕ

/-- White background colour (source line 138). -/
def white : Colour := (255, 255, 255)

/-- Phase record as read from one node of `phases.xml`. -/
structure PhaseRec where
  id : ℕ
  name : String
  colour : Colour
  mass : ℚ
  background : Bool
  deriving DecidableEq, Repr

/-- Entry of `phase_map` (source lines 194-204): a phase with its mutable
pixel histogram, initialised to zero. -/
structure Phase where
  mineral_name : String
  colour : Colour
  mass : ℚ
  histogram : ℕ
  deriving DecidableEq, Repr

/-- Conversion of a record into its initial `phase_map` entry. -/
def phaseOf (r : PhaseRec) : Phase :=
  { mineral_name := r.name, colour := r.colour, mass := r.mass, histogram := 0 }

abbrev PhaseMap := List (ℕ × Phase)

/-- Python dict assignment `phase_map[id] = v` on the key-sorted
association-list model: overwrites an existing key, otherwise inserts at
the key-ordered position.  The key-sorted layout is a representation
choice for the key-value content only; no theorem about this map reads
off the position of an entry. -/
def insertOverwrite : PhaseMap → ℕ → Phase → PhaseMap
  | [], k, v => [(k, v)]
  | (k', v') :: rest, k, v =>
    if k < k' then (k, v) :: (k', v') :: rest
    else if k = k' then (k, v) :: rest
    else (k', v') :: insertOverwrite rest k v

/-- Python dict subscript `phase_map[k]` as a partial lookup. -/
def lookupPhase : PhaseMap → ℕ → Option Phase
  | [], _ => none
  | (k', v') :: rest, k => if k = k' then some v' else lookupPhase rest k

/-- Source lines 176-204: build `phase_map` from the phase nodes, skipping
background records; each remaining record is assigned into the dict. -/
def buildPhaseMap (recs : List PhaseRec) : PhaseMap :=
  recs.foldl (fun pm r => if r.background then pm else insertOverwrite pm r.id (phaseOf r)) []

/-- Source lines 319-320: `phase_map[phase_index]['histogram'] += 1`,
incrementing the histogram of the entry with the given key (first match;
keys are unique in the dict model). -/
def bump : PhaseMap → ℕ → PhaseMap
  | [], _ => []
  | (k', v') :: rest, k =>
    if k = k' then (k', { v' with histogram := v'.histogram + 1 }) :: rest
    else (k', v') :: bump rest k

/-- Total pixel count recorded in a phase map, i.e. the sum of all
histogram entries. -/
def sumHist (pm : PhaseMap) : ℕ := (pm.map (fun kv => kv.2.histogram)).sum

/-!
Legend layout (source lines 141-150 and 248-257).
-/

/-- Source line 141. -/
def font_size : ℤ := 24

/-- Source line 145: `int(math.ceil(font_size * 1.3))`. -/
def legend_line_height : ℤ := ⌈(font_size : ℚ) * (13/10)⌉

/-- Source line 146. -/
def legend_text_x_offset : ℤ := legend_line_height * 2 - font_size

/-- Source line 189, folded over the phase nodes: the widest rendered
mineral name among non-background records, starting from 0.  The text
measurement capability `getsize` stands for `font.getsize(...)[0]`. -/
def largest_name_width (getsize : String → ℤ) (recs : List PhaseRec) : ℤ :=
  recs.foldl (fun acc r => if r.background then acc else max acc (getsize r.name)) 0

/-- Source line 249: `max_numeric_width = font.getsize("<0.01")[0]`. -/
def max_numeric_width (getsize : String → ℤ) : ℤ := getsize "<0.01"

/-- Source line 250: `legend_start_x = int(math.ceil(diameter_px + 30))`. -/
def legend_start_x (m : Measurement) : ℤ := ⌈((diameter_px m : ℚ) + 30 : ℚ)⌉

/-- Source line 253: the x value at which the numeric percentage column
must stop; note the first summand is `diameter_px`, not `legend_start_x`. -/
def percent_right_x (getsize : String → ℤ) (recs : List PhaseRec) (m : Measurement) : ℤ :=
  diameter_px m + legend_text_x_offset + largest_name_width getsize recs +
    max_numeric_width getsize + legend_line_height - font_size

/-- Source line 254: `canvas_size = (percent_right_x, diameter_px)`. -/
def canvas_size (getsize : String → ℤ) (recs : List PhaseRec) (m : Measurement) : ℤ × ℤ :=
  (percent_right_x getsize recs m, diameter_px m)

/-!
Percentage formatting (source lines 69-73).
-/

/-- Rounding of a rational to the nearest integer with ties to even, the
rounding applied by float formatting with a fixed number of decimals. -/
def roundHalfEven (q : ℚ) : ℤ :=
  if q - ⌊q⌋ < 1/2 then ⌊q⌋
  else if 1/2 < q - ⌊q⌋ then ⌊q⌋ + 1
  else if ⌊q⌋ % 2 = 0 then ⌊q⌋ else ⌊q⌋ + 1

/-- Two decimal digits of a value in `[0, 99]`, zero padded. -/
def two_digits (f : ℕ) : String :=
  String.mk [Nat.digitChar (f / 10), Nat.digitChar (f % 10)]

/-- Left pad with spaces to the minimum field width 4 of `"{:4.2f}"`
(never triggered for a non-negative value, whose rendering is at least
4 characters wide). -/
def padToWidth4 (s : String) : String :=
  if s.length < 4 then String.mk (List.replicate (4 - s.length) ' ') ++ s else s

/-- Python `"{:4.2f}".format(value)`: render with exactly two decimal
digits and minimum field width 4.  The negative branch is unreachable in
the program (the caller returns early for every value below 0.01). -/
def pyFormat42 (q : ℚ) : String :=
  let n : ℤ := roundHalfEven (100 * q)
  if n < 0 then
    "-" ++ padToWidth4 (Nat.repr (n.natAbs / 100) ++ "." ++ two_digits (n.natAbs % 100))
  else
    padToWidth4 (Nat.repr (n.toNat / 100) ++ "." ++ two_digits (n.toNat % 100))

/-- Source lines 69-73: `get_percent_text(value)` returns the literal
string for values below 0.01 and otherwise formats with `"{:4.2f}"`. -/
def get_percent_text (value : ℚ) : String :=
  if value < 1/100 then "<0.01" else pyFormat42 value

/-!
Legend ordering (source lines 344-348): drop zero-histogram entries (a new
dict built by a comprehension over `phase_map.iteritems()`), then
`sorted(phase_map.items(), key = lambda x: x[1]['histogram'], reverse = True)`.
Python `sorted` is a stable sort; with `reverse=True` entries comparing
equal keep their original relative order, so ties are left in the ORDER IN
WHICH THE DICT ITERATES, which is CPython 2 hash-slot order, not ascending
key order in general.  The stable descending sort is modelled by
`List.insertionSort` with the reflexive total relation on descending
histograms, which inserts each element before the first element not
strictly above it and is therefore stable in the same sense.

CPython 2 dict iteration for the int-keyed `phase_map`: `hash(n) = n` for
a natural number `n`, the table has `2^k` slots (initially 8), an entry
with key `n` lives in slot `n mod 2^k` when that slot is free, and
iteration visits slots in increasing index order.  When no two keys share
a slot of the initial 8-slot table and there are at most 5 entries (so no
probing and no resize ever happens), the iteration order is exactly
increasing `key mod 8`; and when every key is below 8, `key mod size = key`
for every table size, so iteration is ascending by key for any number of
entries.  `pyDictItemsSmall` models this distinct-slot case; both the C6
counterexample (slots 2, 4, 0 for keys 10, 20, 200) and the C6 amended
theorem (all keys below 8) stay inside it.  Re-running the program on the
same input trivially reproduces the same order, since the model is a pure
function of its input.
-/

/-- Descending-histogram comparison used by the legend sort. -/
def legendRel (a b : ℕ × Phase) : Prop := b.2.histogram ≤ a.2.histogram

instance : DecidableRel legendRel := fun a b => by
  unfold legendRel; infer_instance

instance : IsTotal (ℕ × Phase) legendRel :=
  ⟨fun a b => le_total b.2.histogram a.2.histogram⟩

instance : IsTrans (ℕ × Phase) legendRel :=
  ⟨fun _ _ _ hab hbc => le_trans hbc hab⟩

/-- Hash slot of an integer key in the initial 8-slot CPython 2 dict
table: `hash(n) mod 8` with `hash(n) = n`. -/
def pySlot (k : ℕ) : ℕ := k % 8

/-- Increasing hash-slot comparison on catalog entries. -/
def slotRel (a b : ℕ × Phase) : Prop := pySlot a.1 ≤ pySlot b.1

instance : DecidableRel slotRel := fun a b => by
  unfold slotRel; infer_instance

instance : IsTotal (ℕ × Phase) slotRel :=
  ⟨fun a b => le_total (pySlot a.1) (pySlot b.1)⟩

instance : IsTrans (ℕ × Phase) slotRel :=
  ⟨fun _ _ _ hab hbc => le_trans hab hbc⟩

/-- CPython 2 iteration order of the int-keyed `phase_map` dict in the
distinct-slot case (no two keys congruent mod 8, at most 5 entries, hence
no probing and no resize): entries are visited in increasing hash-slot
order `key mod 8`. -/
def pyDictItemsSmall (entries : PhaseMap) : PhaseMap :=
  List.insertionSort slotRel entries

/-- Source lines 344-348 applied to the dict iteration order: drop
zero-histogram entries, then stable-sort by histogram descending. -/
def legendPhasesPyDict (entries : PhaseMap) : PhaseMap :=
  List.insertionSort legendRel
    ((pyDictItemsSmall entries).filter (fun kv => kv.2.histogram ≠ 0))

/-- Strict legend order asserted by the spec: pixel count descending,
ties broken by ascending phase id. -/
def legendOrder (a b : ℕ × Phase) : Prop :=
  b.2.histogram < a.2.histogram ∨ (a.2.histogram = b.2.histogram ∧ a.1 < b.1)

instance : DecidableRel legendOrder := fun a b => by
  unfold legendOrder; infer_instance

/-!
Field compositing (source lines 281-342).  The mutable PIL canvas is
modelled as the initial white background together with the list of pixel
writes performed on it, most recent first; reading a position takes the
most recent write, falling back to white (source line 282 creates the
canvas filled with `white`).  A Python `KeyError` raised by
`phase_map[phase_index]` on an id absent from the catalog is modelled as
an `Except.error` carrying the offending phase index.
-/

/-- Log of canvas writes, most recent first. -/
abbrev CanvasWrites := List ((ℤ × ℤ) × Colour)

/-- Colour of the canvas at a position: the most recent write there, or
the initial white background. -/
def canvasAt (w : CanvasWrites) (p : ℤ × ℤ) : Colour :=
  match w.find? (fun wr => wr.1 = p) with
  | some wr => wr.2
  | none => white

/-- Bounding box accumulator (source lines 289-292), with its sentinel
initial values. -/
structure BBox where
  xMin : ℤ
  xMax : ℤ
  yMin : ℤ
  yMax : ℤ
  deriving DecidableEq, Repr

/-- Source lines 289-292: initial sentinel bounding box. -/
def initBBox : BBox := ⟨1000000000, -1, 1000000000, -1⟩

/-- Mutable state threaded through the field loop: the canvas write log,
`classified_pixel_count`, the global `phase_map` histograms and the
thumbnail bounding box. -/
structure RunState where
  canvas : CanvasWrites
  count : ℕ
  global : PhaseMap
  bbox : BBox
  deriving DecidableEq, Repr

/-- Initial run state (source lines 282-292): empty canvas, zero count,
freshly built `phase_map`, sentinel bounding box. -/
def initState (pm : PhaseMap) : RunState :=
  { canvas := [], count := 0, global := pm, bbox := initBBox }

/-- One field tile: its phase-index raster and validity mask, both indexed
as `raster x y` like the PIL pixel-access objects of source lines 298-302. -/
structure FieldTile where
  phases : ℕ → ℕ → ℕ
  mask : ℕ → ℕ → ℕ

/-- Source lines 304-320, the body of the per-pixel loop: a pixel is acted
on iff `phase_index != 0 and mask_index != 0`; then the phase colour is
looked up (KeyError on an unknown id, in either the global or the
per-field map), the canvas pixel at the offset position is written, the
bounding box is extended, and the total, global and per-field histograms
are each incremented. -/
def pixelStep (tile : FieldTile) (fx fy : ℤ) (x y : ℕ)
    (s : RunState) (fh : PhaseMap) : Except ℕ (RunState × PhaseMap) :=
  let pi := tile.phases x y
  let mi := tile.mask x y
  if pi ≠ 0 ∧ mi ≠ 0 then
    match lookupPhase s.global pi, lookupPhase fh pi with
    | some ph, some _ =>
      let px : ℤ := (x : ℤ) + fx
      let py : ℤ := (y : ℤ) + fy
      .ok ({ canvas := ((px, py), ph.colour) :: s.canvas,
             count := s.count + 1,
             global := bump s.global pi,
             bbox := ⟨min s.bbox.xMin px, max s.bbox.xMax px,
                      min s.bbox.yMin py, max s.bbox.yMax py⟩ },
           bump fh pi)
    | _, _ => .error pi
  else .ok (s, fh)

/-- Row-major pixel enumeration of source lines 304-305: `y` in
`range(image_height_px)` outer, `x` in `range(image_width_px)` inner. -/
def pixelList (w h : ℕ) : List (ℕ × ℕ) :=
  (List.range h).flatMap (fun y => (List.range w).map (fun x => (x, y)))

/-- Source lines 294-320 for one field: start from a deep copy of
`empty_phase_map` as the per-field histogram and run the pixel loop. -/
def processField (m : Measurement) (empty : PhaseMap) (tile : FieldTile)
    (fx fy : ℤ) (s : RunState) : Except ℕ (RunState × PhaseMap) :=
  (pixelList m.image_width_px m.image_height_px).foldlM
    (fun acc p => pixelStep tile fx fy p.1 p.2 acc.1 acc.2) (s, empty)

/-- Source lines 294-342: the loop over all fields, collecting each
field's final per-field histogram (used for the per-field inserts). -/
def runFields (m : Measurement) (empty : PhaseMap) :
    List (FieldTile × ℤ × ℤ) → RunState → Except ℕ (RunState × List PhaseMap)
  | [], s => .ok (s, [])
  | f :: fs, s => do
    let (s', fh) ← processField m empty f.1 f.2.1 f.2.2 s
    let (s'', fhs) ← runFields m empty fs s'
    pure (s'', fh :: fhs)

/-- Compositing pipeline from catalog construction to the end of the field
loop: `phase_map` is built once and serves both as the initial global map
and (as `empty_phase_map`, its deep copy taken before any increment) as
the per-field starting histogram. -/
def runPipeline (recs : List PhaseRec) (m : Measurement)
    (fields : List (FieldTile × ℤ × ℤ)) : Except ℕ (RunState × List PhaseMap) :=
  runFields m (buildPhaseMap recs) fields (initState (buildPhaseMap recs))

/-- Source line 364: `thumbnail_bbox = (x_min, y_min, x_max, y_max)`, the
box handed to `png.crop` with no emptiness check in between. -/
def thumbnailBBox (s : RunState) : ℤ × ℤ × ℤ × ℤ :=
  (s.bbox.xMin, s.bbox.yMin, s.bbox.xMax, s.bbox.yMax)

/-- Box that reaches the `png.crop` call of source line 365, when the
field loop completes without a KeyError. -/
def pipelineThumbnailBBox (recs : List PhaseRec) (m : Measurement)
    (fields : List (FieldTile × ℤ × ℤ)) : Except ℕ (ℤ × ℤ × ℤ × ℤ) :=
  (runPipeline recs m fields).map (fun r => thumbnailBBox r.1)

/-!
Concrete instances used by witnesses and counterexamples.
-/

/-- Text measurement assigning each string its character count. -/
def gsLen : String → ℤ := fun s => (s.length : ℤ)

/-- Geometry with view field 2 um, a 2 x 2 px image and a 2 um sample:
`diameter_px = 2`. -/
def mLayout : Measurement := ⟨2, 2, 2, 2⟩

/-- Single-phase catalog input with id 1 and a two-character name. -/
def recsLayout : List PhaseRec := [⟨1, "Qz", (1, 2, 3), 0, false⟩]

/-- Geometry with view field 2 um, a 1 x 1 px image and a 3 um sample:
the diameter quotient is 1.5, which truncates to 1 but rounds to 2. -/
def mDiam : Measurement := ⟨2, 1, 1, 3⟩

/-- Geometry with `pixel_spacing = 2`, `diameter_px = 4`, `origin = (2, 2)`:
an offset of 1 um lands exactly on a rounding half-point. -/
def mHalf : Measurement := ⟨4, 2, 2, 8⟩

/-- Geometry with `pixel_spacing = 3`: an offset of 1 um gives the
non-half quotient 1/3. -/
def mThird : Measurement := ⟨3, 1, 1, 3⟩

/-- First of two non-background records sharing id 1. -/
def recDupA : PhaseRec := ⟨1, "Albite", (10, 20, 30), 5, false⟩

/-- Second record with the same id as `recDupA` but different data. -/
def recDupB : PhaseRec := ⟨1, "Biotite", (40, 50, 60), 7, false⟩

/-- Catalog input with a single non-background phase of id 1. -/
def recsOne : List PhaseRec := [⟨1, "Albite", (10, 20, 30), 5, false⟩]

/-- Field tile whose mask is zero everywhere: no pixel classifies. -/
def tileMasked : FieldTile := ⟨fun _ _ => 1, fun _ _ => 0⟩

/-- Field tile whose phase raster is zero everywhere. -/
def tileZero : FieldTile := ⟨fun _ _ => 0, fun _ _ => 1⟩

/-- Field tile with phase 1 and full mask everywhere. -/
def tileOne : FieldTile := ⟨fun _ _ => 1, fun _ _ => 1⟩

/-- Geometry for a 1 x 1 px single-field run. -/
def mTiny : Measurement := ⟨1, 1, 1, 1⟩

/-- Run state after classifying the single pixel of `tileOne` at offset
(0, 0) starting from the catalog of `recsOne`. -/
def stateOne : RunState :=
  { canvas := [((0, 0), (10, 20, 30))],
    count := 1,
    global := [(1, ⟨"Albite", (10, 20, 30), 5, 1⟩)],
    bbox := ⟨0, 0, 0, 0⟩ }

/-- Per-field histogram after classifying the single pixel of `tileOne`. -/
def fieldHistOne : PhaseMap := [(1, ⟨"Albite", (10, 20, 30), 5, 1⟩)]

/-- Phase map with two tied histograms (ids 1 and 3), a larger one (id 2)
and a zero entry (id 4); all ids are below the 8-slot dict table size. -/
def pmLegend : PhaseMap :=
  [(1, ⟨"A", (0, 0, 0), 0, 5⟩), (2, ⟨"B", (0, 0, 0), 0, 7⟩),
   (3, ⟨"C", (0, 0, 0), 0, 5⟩), (4, ⟨"D", (0, 0, 0), 0, 0⟩)]

/-- Phase map whose ids 10, 20 and 200 occupy the distinct hash slots
2, 4 and 0 of the 8-slot dict table, so CPython 2 iterates them in the
order 200, 10, 20; ids 10 and 200 have tied histograms. -/
def pmHash : PhaseMap :=
  [(10, ⟨"Kaolinite", (1, 1, 1), 0, 5⟩), (20, ⟨"Quartz", (2, 2, 2), 0, 7⟩),
   (200, ⟨"Rutile", (3, 3, 3), 0, 5⟩)]

/-!
Helper lemmas about `pyRound`.
-/

theorem pyRound_neg (q : ℚ) : pyRound (-q) = -pyRound q := by
  unfold pyRound
  rcases lt_trichotomy q 0 with h | h | h
  · rw [if_pos (by linarith : (0:ℚ) ≤ -q), if_neg (not_le.mpr h), neg_neg]
  · subst h; norm_num
  · rw [if_neg (by simpa using not_le.mpr h), if_pos h.le, neg_neg]

theorem isHalfInt_iff (q : ℚ) : IsHalfInt q ↔ ∃ z : ℤ, q = (z : ℚ) + 1/2 := by
  unfold IsHalfInt
  rw [Rat.den_eq_one_iff]
  constructor
  · intro h
    exact ⟨(q - 1/2).num, by rw [h]; ring⟩
  · rintro ⟨z, rfl⟩
    have : ((z : ℚ) + 1/2 - 1/2) = (z : ℚ) := by ring
    rw [this]
    simp

theorem pyRound_eq_round {q : ℚ} (h : ¬ IsHalfInt q) : pyRound q = round q := by
  rw [round_eq]
  unfold pyRound
  split_ifs with h0
  · rfl
  · push_neg at h0
    have hne : q + 1/2 ≠ (⌊q + 1/2⌋ : ℚ) := by
      intro heq
      apply h
      rw [isHalfInt_iff]
      exact ⟨⌊q + 1/2⌋ - 1, by push_cast; linarith⟩
    have hlt : (⌊q + 1/2⌋ : ℚ) < q + 1/2 := lt_of_le_of_ne (Int.floor_le _) (Ne.symm hne)
    have h1 : -⌊-q + 1/2⌋ = ⌈q - 1/2⌉ := by
      have : (-q + 1/2 : ℚ) = -(q - 1/2) := by ring
      rw [this, ← Int.ceil_neg, neg_neg]
    rw [h1]
    rw [Int.ceil_eq_iff]
    constructor
    · linarith
    · have := Int.lt_floor_add_one (q + 1/2)
      linarith

theorem not_isHalfInt_neg {q : ℚ} (h : ¬ IsHalfInt q) : ¬ IsHalfInt (-q) := by
  intro hc
  apply h
  rw [isHalfInt_iff] at hc ⊢
  obtain ⟨z, hz⟩ := hc
  exact ⟨-z - 1, by push_cast; linarith⟩

theorem not_isHalfInt_add_int {q : ℚ} (c : ℤ) (h : ¬ IsHalfInt q) : ¬ IsHalfInt (q + c) := by
  intro hc
  apply h
  rw [isHalfInt_iff] at hc ⊢
  obtain ⟨z, hz⟩ := hc
  exact ⟨z - c, by push_cast; linarith⟩

theorem pyRound_add_int {q : ℚ} (c : ℤ) (h : ¬ IsHalfInt q) :
    pyRound (q + c) = pyRound q + c := by
  rw [pyRound_eq_round (not_isHalfInt_add_int c h), pyRound_eq_round h, round_add_int]

theorem pyRound_shift (t : ℚ) (a : ℤ) (b : ℕ) (h : ¬ IsHalfInt t) :
    pyRound (t + (a : ℚ) - (b : ℚ)) = pyRound t + (a - (b : ℤ)) := by
  have e : t + (a : ℚ) - (b : ℚ) = t + ((a - (b : ℤ) : ℤ) : ℚ) := by push_cast; ring
  rw [e, pyRound_add_int _ h]

/-!
Claim C1.
-/

/-- C1: for every field offset `(dx, dy)` the physical-to-canvas transform
returns exactly `x = round(-dx / pixel_spacing + origin.x - image_width/2)`
and `y = round(dy / pixel_spacing + origin.y - image_height/2)`: the x
component is negated and the y component is not (`round` is Python 2
rounding, halves away from zero; `origin` is the source value
`(diameter_px/2, diameter_px/2)` and the halvings of the image dimensions
are the Python 2 integer divisions of the source expressions). -/
theorem c1_transform_formula (m : Measurement) (dx dy : ℚ) :
    fieldXY m dx dy =
      (pyRound (-dx / pixel_spacing m + ((origin m).1 : ℚ) - ((m.image_width_px / 2 : ℕ) : ℚ)),
       pyRound (dy / pixel_spacing m + ((origin m).2 : ℚ) - ((m.image_height_px / 2 : ℕ) : ℚ))) :=
  rfl

/-!
Claim C3.
-/

/-- C3 counterexample: with view field 2 um, image width 1 px and sample
diameter 3 um the quotient `sample_diameter / pixel_spacing` is 1.5; the
code computes `diameter_px = 1` (truncation) whereas rounding to the
nearest integer would give 2. -/
theorem c3_diameter_counterexample :
    diameter_px mDiam = 1 ∧
      pyRound ((mDiam.sample_diameter_um : ℚ) / pixel_spacing mDiam) = 2 ∧
      diameter_px mDiam ≠ pyRound ((mDiam.sample_diameter_um : ℚ) / pixel_spacing mDiam) := by
  have h1 : diameter_px mDiam = 1 := by norm_num [diameter_px, mDiam]
  have h2 : pyRound ((mDiam.sample_diameter_um : ℚ) / pixel_spacing mDiam) = 2 := by
    norm_num [pyRound, pixel_spacing, mDiam]
  exact ⟨h1, h2, by rw [h1, h2]; decide⟩

/-- C3 amended: `pixel_spacing` is the physical view-field width divided
by the image width in pixels, and `field_diameter_px` is the physical
sample diameter divided by `pixel_spacing` TRUNCATED to an integer
(`int(...)`, i.e. the floor of the non-negative quotient), not rounded to
the nearest integer. -/
theorem c3_diameter_truncation (m : Measurement) :
    pixel_spacing m = (m.view_field_um : ℚ) / (m.image_width_px : ℚ) ∧
      diameter_px m = ⌊(m.sample_diameter_um : ℚ) / pixel_spacing m⌋ := by
  refine ⟨rfl, ?_⟩
  unfold diameter_px pixel_spacing
  congr 1
  rw [div_div_eq_mul_div, div_mul_eq_mul_div]

/-!
Claim C2.
-/

/-- C2 counterexample: with `diameter_px = 2`, a one-phase catalog and
character-count text measurement, the code computes `percent_right_x = 57`
(it starts from `diameter_px`), while the claimed formula starting from
`legend_start_x = diameter_px + 30` gives 87. -/
theorem c2_layout_counterexample :
    percent_right_x gsLen recsLayout mLayout ≠
      legend_start_x mLayout + legend_text_x_offset + largest_name_width gsLen recsLayout +
        max_numeric_width gsLen + legend_line_height - font_size := by
  have hd : diameter_px mLayout = 2 := by norm_num [diameter_px, mLayout]
  have hh : legend_line_height = 32 := by
    show (⌈(font_size : ℚ) * (13/10)⌉ : ℤ) = 32
    refine Int.ceil_eq_iff.mpr ⟨?_, ?_⟩ <;> norm_num [font_size]
  have hs : legend_start_x mLayout = 32 := by
    show (⌈((diameter_px mLayout : ℚ) + 30 : ℚ)⌉ : ℤ) = 32
    rw [hd]
    refine Int.ceil_eq_iff.mpr ⟨?_, ?_⟩ <;> norm_num
  have hn : largest_name_width gsLen recsLayout = 2 := rfl
  have hm : max_numeric_width gsLen = 5 := rfl
  unfold percent_right_x legend_text_x_offset
  rw [hd, hh, hs, hn, hm]
  norm_num [font_size]

/-- C2 amended: `legend_start_x` is the classification width plus the
fixed margin 30, but `percent_right_x` is computed from the classification
width `diameter_px` itself (the 30 px margin is NOT included):
`percent_right_x = diameter_px + text_offset + max_label_width +
max_percent_width + line_height - font_size`, with `max_percent_width`
the measured width of the string `"<0.01"`; the total canvas width equals
`percent_right_x`. -/
theorem c2_layout_amended (getsize : String → ℤ) (recs : List PhaseRec) (m : Measurement) :
    legend_start_x m = diameter_px m + 30 ∧
    percent_right_x getsize recs m =
      diameter_px m + legend_text_x_offset + largest_name_width getsize recs +
        getsize "<0.01" + legend_line_height - font_size ∧
    (canvas_size getsize recs m).1 = percent_right_x getsize recs m := by
  refine ⟨?_, rfl, rfl⟩
  show (⌈((diameter_px m : ℚ) + 30 : ℚ)⌉ : ℤ) = diameter_px m + 30
  have e : ((diameter_px m : ℚ) + 30 : ℚ) = ((diameter_px m + 30 : ℤ) : ℚ) := by
    push_cast; ring
  rw [e, Int.ceil_intCast]

/-!
Claim C5.
-/

/-- Evaluation of `buildPhaseMap` on a list extended by one record. -/
theorem buildPhaseMap_append (l : List PhaseRec) (r : PhaseRec) :
    buildPhaseMap (l ++ [r]) =
      if r.background then buildPhaseMap l
      else insertOverwrite (buildPhaseMap l) r.id (phaseOf r) := by
  unfold buildPhaseMap
  rw [List.foldl_append]
  rfl

/-- Dict assignment followed by lookup of the same key yields the assigned
value. -/
theorem lookup_insertOverwrite (pm : PhaseMap) (k : ℕ) (v : Phase) :
    lookupPhase (insertOverwrite pm k v) k = some v := by
  induction pm with
  | nil => simp [insertOverwrite, lookupPhase]
  | cons hd tl ih =>
    obtain ⟨k', v'⟩ := hd
    by_cases h1 : k < k'
    · simp [insertOverwrite, h1, lookupPhase]
    · by_cases h2 : k = k'
      · simp [insertOverwrite, h1, h2, lookupPhase]
      · simp [insertOverwrite, h1, h2, lookupPhase, ih]

/-- C5 counterexample: two non-background records share id 1, yet catalog
construction succeeds and returns the second record's data under that id:
the second record silently overwrites the first (there is no
`DuplicatePhaseID` failure in the code). -/
theorem c5_duplicate_counterexample :
    recDupA.id = recDupB.id ∧ recDupA.background = false ∧ recDupB.background = false ∧
      buildPhaseMap [recDupA, recDupB] = [(recDupB.id, phaseOf recDupB)] :=
  ⟨rfl, rfl, rfl, rfl⟩

/-- C5 amended: when two non-background phase records share an id, no
error is raised; the later record silently overwrites the earlier one,
so after construction the id maps to the last record with that id. -/
theorem c5_last_record_wins (l : List PhaseRec) (r : PhaseRec) (h : r.background = false) :
    lookupPhase (buildPhaseMap (l ++ [r])) r.id = some (phaseOf r) := by
  rw [buildPhaseMap_append, h]
  simp only [Bool.false_eq_true, if_false]
  exact lookup_insertOverwrite _ _ _

/-- C5 witness: instantiation of `c5_last_record_wins` at the concrete
duplicate-id records. -/
theorem c5_last_record_wins_witness :
    recDupB.background = false ∧
      lookupPhase (buildPhaseMap ([recDupA] ++ [recDupB])) recDupB.id = some (phaseOf recDupB) :=
  ⟨rfl, c5_last_record_wins [recDupA] recDupB rfl⟩

/-!
Claim C9.
-/

/-- Round-half-even returns the floor or the floor plus one. -/
theorem roundHalfEven_cases (q : ℚ) : roundHalfEven q = ⌊q⌋ ∨ roundHalfEven q = ⌊q⌋ + 1 := by
  unfold roundHalfEven
  split_ifs <;> simp

/-- Round-half-even is the floor when the fractional part is below one
half. -/
theorem roundHalfEven_of_lt_half {q : ℚ} (h : q - ⌊q⌋ < 1/2) : roundHalfEven q = ⌊q⌋ := by
  unfold roundHalfEven
  rw [if_pos h]

/-- Two-digit rendering always has length two. -/
theorem two_digits_len (f : ℕ) : (two_digits f).length = 2 := rfl

/-- Decimal rendering of a single-digit natural number has length one. -/
theorem repr_len_one {k : ℕ} (h : k ≤ 9) : (Nat.repr k).length = 1 := by
  interval_cases k <;> rfl

/-- Padding to width 4 leaves a string of length 4 unchanged. -/
theorem pad4_of_len4 {s : String} (h : s.length = 4) : padToWidth4 s = s := by
  unfold padToWidth4
  rw [if_neg]
  omega

/-- Length of the two-decimal rendering with a single-digit integer part. -/
theorem core_len {k : ℕ} (f : ℕ) (hk : k ≤ 9) :
    (Nat.repr k ++ "." ++ two_digits f).length = 4 := by
  rw [String.length_append, String.length_append, repr_len_one hk, two_digits_len]
  rfl

/-- C9 counterexample: on the `x >= 0.01` branch the rendered length is
not constant: `get_percent_text 5 = "5.00"` has length 4 while
`get_percent_text 50 = "50.00"` has length 5 (the format has a fixed
number of decimals, not a fixed total width beyond the minimum 4). -/
theorem c9_length_counterexample :
    get_percent_text 5 = "5.00" ∧ get_percent_text 50 = "50.00" ∧
      (get_percent_text 5).length ≠ (get_percent_text 50).length := by
  have h5 : get_percent_text 5 = "5.00" := by
    unfold get_percent_text
    rw [if_neg (by norm_num)]
    have h1 : (⌊(100 * 5 : ℚ)⌋ : ℤ) = 500 := by norm_num
    have hr : roundHalfEven (100 * 5 : ℚ) = 500 := by
      rw [roundHalfEven_of_lt_half (by rw [h1]; norm_num)]
      exact h1
    simp only [pyFormat42]
    rw [hr]
    rfl
  have h50 : get_percent_text 50 = "50.00" := by
    unfold get_percent_text
    rw [if_neg (by norm_num)]
    have h1 : (⌊(100 * 50 : ℚ)⌋ : ℤ) = 5000 := by norm_num
    have hr : roundHalfEven (100 * 50 : ℚ) = 5000 := by
      rw [roundHalfEven_of_lt_half (by rw [h1]; norm_num)]
      exact h1
    simp only [pyFormat42]
    rw [hr]
    rfl
  exact ⟨h5, h50, by rw [h5, h50]; decide⟩

/-- C9 amended: `get_percent_text x` returns the literal `"<0.01"` for
every `x < 0.01`, and a two-decimal rendering for `x >= 0.01`; the length
of that rendering is 4 exactly while the value rounds below 10.00 (for
`0.01 <= x < 9.995`), and grows with each further decimal digit of the
integer part rather than staying constant. -/
theorem c9_percent_text_amended (x : ℚ) :
    (x < 1/100 → get_percent_text x = "<0.01") ∧
    (1/100 ≤ x → x < 1999/200 → (get_percent_text x).length = 4) := by
  constructor
  · intro h
    unfold get_percent_text
    rw [if_pos h]
  · intro h1 h2
    unfold get_percent_text
    rw [if_neg (not_lt.mpr h1)]
    simp only [pyFormat42]
    have hf1 : (1 : ℤ) ≤ ⌊(100 * x : ℚ)⌋ := by
      rw [Int.le_floor]
      push_cast
      linarith
    have hf2 : ⌊(100 * x : ℚ)⌋ ≤ 999 := by
      have hle : (⌊(100 * x : ℚ)⌋ : ℚ) ≤ 100 * x := Int.floor_le _
      have hq : (⌊(100 * x : ℚ)⌋ : ℚ) < ((1000 : ℤ) : ℚ) := by push_cast; linarith
      have h3 : ⌊(100 * x : ℚ)⌋ < (1000 : ℤ) := by exact_mod_cast hq
      omega
    have hn : 1 ≤ roundHalfEven (100 * x : ℚ) ∧ roundHalfEven (100 * x : ℚ) ≤ 999 := by
      rcases roundHalfEven_cases (100 * x : ℚ) with hc | hc
      · omega
      · by_cases h999 : ⌊(100 * x : ℚ)⌋ = 999
        · exfalso
          have hr : (100 * x : ℚ) - ⌊(100 * x : ℚ)⌋ < 1/2 := by
            rw [h999]
            push_cast
            linarith
          have := roundHalfEven_of_lt_half hr
          omega
        · omega
    rw [if_neg (by omega : ¬ roundHalfEven (100 * x : ℚ) < 0)]
    have hk : (roundHalfEven (100 * x : ℚ)).toNat / 100 ≤ 9 := by omega
    rw [pad4_of_len4 (core_len _ hk)]
    exact core_len _ hk

/-- C9 witness: instantiation of `c9_percent_text_amended` on the
below-threshold value 1/200 and the in-range value 5. -/
theorem c9_percent_text_amended_witness :
    ((1/200 : ℚ) < 1/100 ∧ get_percent_text (1/200) = "<0.01") ∧
      ((1/100 : ℚ) ≤ 5 ∧ (5 : ℚ) < 1999/200 ∧ (get_percent_text 5).length = 4) :=
  ⟨⟨by norm_num, (c9_percent_text_amended (1/200)).1 (by norm_num)⟩,
   ⟨by norm_num, by norm_num, (c9_percent_text_amended 5).2 (by norm_num) (by norm_num)⟩⟩

/-!
Claim C7.
-/

/-- C7 counterexample: with `pixel_spacing = 2`, `origin = (2, 2)` and
offset `dx = 1` the quotient `dx / pixel_spacing = 1/2` sits on a rounding
half-point: `fieldXY (-1, 0) = (2, 1)` but the claimed identity predicts
`(fieldXY (1, 0).x + 2 * round(1/2), fieldXY (1, 0).y) = (3, 1)` (Python 2
rounds both 0.5 and 1.5 away from zero, the claimed shift does not). -/
theorem c7_antisymmetry_counterexample :
    fieldXY mHalf (-1) 0 ≠
      ((fieldXY mHalf 1 0).1 + 2 * pyRound (1 / pixel_spacing mHalf),
       (fieldXY mHalf 1 0).2) := by
  have h1 : fieldXY mHalf (-1) 0 = (2, 1) := by
    norm_num [fieldXY, pyRound, pixel_spacing, origin, diameter_px, mHalf]
  have h2 : fieldXY mHalf 1 0 = (1, 1) := by
    norm_num [fieldXY, pyRound, pixel_spacing, origin, diameter_px, mHalf]
  have h3 : pyRound (1 / pixel_spacing mHalf) = 1 := by
    norm_num [pyRound, pixel_spacing, mHalf]
  rw [h1, h2, h3]
  decide

/-- C7 amended: the antisymmetry identity
`physical_to_canvas(-dx, dy) = (physical_to_canvas(dx, dy).x +
2 * round(dx / pixel_spacing), physical_to_canvas(dx, dy).y)` holds
whenever `dx / pixel_spacing` is not an integer plus one half; on those
half-points the away-from-zero rounding of Python 2 breaks the identity
(see the counterexample).  The y component is unchanged by negating dx
unconditionally. -/
theorem c7_antisymmetry_nonhalf (m : Measurement) (dx dy : ℚ)
    (h : ¬ IsHalfInt (dx / pixel_spacing m)) :
    fieldXY m (-dx) dy =
      ((fieldXY m dx dy).1 + 2 * pyRound (dx / pixel_spacing m),
       (fieldXY m dx dy).2) := by
  have hneg : ¬ IsHalfInt (-(dx / pixel_spacing m)) := not_isHalfInt_neg h
  have h1 : (fieldXY m (-dx) dy).1 =
      pyRound (dx / pixel_spacing m) + ((origin m).1 - ((m.image_width_px / 2 : ℕ) : ℤ)) := by
    show pyRound (-(-dx) / pixel_spacing m + ((origin m).1 : ℚ) -
        ((m.image_width_px / 2 : ℕ) : ℚ)) = _
    rw [neg_neg]
    exact pyRound_shift _ _ _ h
  have h2 : (fieldXY m dx dy).1 =
      pyRound (-(dx / pixel_spacing m)) + ((origin m).1 - ((m.image_width_px / 2 : ℕ) : ℤ)) := by
    show pyRound (-dx / pixel_spacing m + ((origin m).1 : ℚ) -
        ((m.image_width_px / 2 : ℕ) : ℚ)) = _
    rw [neg_div]
    exact pyRound_shift _ _ _ hneg
  refine Prod.ext_iff.mpr ⟨?_, rfl⟩
  rw [h1, h2, pyRound_neg]
  ring

/-- C7 witness: instantiation of `c7_antisymmetry_nonhalf` with
`pixel_spacing = 3` and `dx = 1`, so that `dx / pixel_spacing = 1/3` is
not a half-integer. -/
theorem c7_antisymmetry_nonhalf_witness :
    ¬ IsHalfInt ((1 : ℚ) / pixel_spacing mThird) ∧
      fieldXY mThird (-1) 0 =
        ((fieldXY mThird 1 0).1 + 2 * pyRound ((1 : ℚ) / pixel_spacing mThird),
         (fieldXY mThird 1 0).2) := by
  have hh : ¬ IsHalfInt ((1 : ℚ) / pixel_spacing mThird) := by
    have e : (1 : ℚ) / pixel_spacing mThird = 1/3 := by
      norm_num [pixel_spacing, mThird]
    rw [e, isHalfInt_iff]
    rintro ⟨z, hz⟩
    have : (z : ℚ) = -1/6 := by linarith
    have h6 : (6 : ℚ) * z = -1 := by rw [this]; ring
    have h7 : (6 * z : ℤ) = -1 := by exact_mod_cast h6
    omega
  exact ⟨hh, c7_antisymmetry_nonhalf mThird 1 0 hh⟩

/-!
Claim C8.
-/

/-- C8: a pixel with zero phase index or zero mask contributes nothing:
the whole run state (canvas contents, classified count, global histogram,
bounding box) and the per-field histogram are returned unchanged; and
conversely a pixel with both values nonzero that is processed successfully
increments the classified count: a pixel is classified iff
`mask != 0 and phase_index != 0`. -/
theorem c8_unclassified_frame (tile : FieldTile) (fx fy : ℤ) (x y : ℕ)
    (s : RunState) (fh : PhaseMap) :
    (tile.phases x y = 0 ∨ tile.mask x y = 0 →
      pixelStep tile fx fy x y s fh = .ok (s, fh)) ∧
    (tile.phases x y ≠ 0 → tile.mask x y ≠ 0 →
      ∀ s' fh', pixelStep tile fx fy x y s fh = .ok (s', fh') →
        s'.count = s.count + 1) := by
  constructor
  · intro h
    have hg : ¬(tile.phases x y ≠ 0 ∧ tile.mask x y ≠ 0) := by
      rcases h with h | h <;> simp [h]
    simp only [pixelStep]
    rw [if_neg hg]
  · intro hp hm s' fh' hstep
    simp only [pixelStep] at hstep
    rw [if_pos (And.intro hp hm)] at hstep
    cases hgl : lookupPhase s.global (tile.phases x y) with
    | none => rw [hgl] at hstep; simp at hstep
    | some ph =>
      cases hfl : lookupPhase fh (tile.phases x y) with
      | none => rw [hgl, hfl] at hstep; simp at hstep
      | some p2 =>
        rw [hgl, hfl] at hstep
        simp only [Except.ok.injEq, Prod.mk.injEq] at hstep
        obtain ⟨hs, -⟩ := hstep
        rw [← hs]

/-- C8 witness: the all-zero-phase tile leaves the state unchanged, and
the fully classified tile increments the count, at concrete inputs. -/
theorem c8_unclassified_frame_witness :
    pixelStep tileZero 0 0 0 0 (initState (buildPhaseMap recsOne)) (buildPhaseMap recsOne) =
      .ok (initState (buildPhaseMap recsOne), buildPhaseMap recsOne) ∧
    stateOne.count = (initState (buildPhaseMap recsOne)).count + 1 := by
  constructor
  · exact (c8_unclassified_frame tileZero 0 0 0 0 (initState (buildPhaseMap recsOne))
      (buildPhaseMap recsOne)).1 (Or.inl rfl)
  · exact (c8_unclassified_frame tileOne 0 0 0 0 (initState (buildPhaseMap recsOne))
      (buildPhaseMap recsOne)).2 (by decide) (by decide) stateOne fieldHistOne (by rfl)


/-!
Claim C4.
-/

/-- Dichotomy for one pixel: either the pixel is skipped (whole state and
field histogram unchanged) or the classified count increases by one. -/
theorem pixelStep_skip_or_inc {tile : FieldTile} {fx fy : ℤ} {x y : ℕ}
    {s : RunState} {fh : PhaseMap} {s' : RunState} {fh' : PhaseMap}
    (h : pixelStep tile fx fy x y s fh = .ok (s', fh')) :
    (s' = s ∧ fh' = fh) ∨ s'.count = s.count + 1 := by
  simp only [pixelStep] at h
  by_cases hg : tile.phases x y ≠ 0 ∧ tile.mask x y ≠ 0
  · rw [if_pos hg] at h
    cases hgl : lookupPhase s.global (tile.phases x y) with
    | none => rw [hgl] at h; simp at h
    | some ph =>
      cases hfl : lookupPhase fh (tile.phases x y) with
      | none => rw [hgl, hfl] at h; simp at h
      | some p2 =>
        rw [hgl, hfl] at h
        simp only [Except.ok.injEq, Prod.mk.injEq] at h
        right
        rw [← h.1]
  · rw [if_neg hg] at h
    simp only [Except.ok.injEq, Prod.mk.injEq] at h
    exact Or.inl ⟨h.1.symm, h.2.symm⟩

/-- Dichotomy lifted over the pixel loop: the count never decreases, and
if it did not increase, the loop changed nothing. -/
theorem foldPixels_skip {tile : FieldTile} {fx fy : ℤ} :
    ∀ (ps : List (ℕ × ℕ)) (a r : RunState × PhaseMap),
      ps.foldlM (fun acc p => pixelStep tile fx fy p.1 p.2 acc.1 acc.2) a = .ok r →
      a.1.count ≤ r.1.count ∧ (r.1.count = a.1.count → r = a) := by
  intro ps
  induction ps with
  | nil =>
    intro a r h
    simp only [List.foldlM_nil] at h
    cases h
    exact ⟨le_refl _, fun _ => rfl⟩
  | cons p ps ih =>
    intro a r h
    rw [List.foldlM_cons] at h
    cases hstep : pixelStep tile fx fy p.1 p.2 a.1 a.2 with
    | error e =>
      rw [hstep] at h
      have h' : (Except.error e : Except ℕ (RunState × PhaseMap)) = .ok r := h
      cases h'
    | ok b =>
      rw [hstep] at h
      have h' : ps.foldlM (fun acc p => pixelStep tile fx fy p.1 p.2 acc.1 acc.2) b = .ok r := h
      obtain ⟨hle, heq⟩ := ih b r h'
      have hstep2 : pixelStep tile fx fy p.1 p.2 a.1 a.2 = .ok (b.1, b.2) := by rw [hstep]
      rcases pixelStep_skip_or_inc hstep2 with hskip | hinc
      · obtain ⟨h1, h2⟩ := hskip
        have hb : b = a := Prod.ext_iff.mpr ⟨h1, h2⟩
        rw [hb] at hle heq
        exact ⟨hle, heq⟩
      · refine ⟨by omega, fun hc => absurd hc (by omega)⟩

/-- Per-field version of the skip dichotomy. -/
theorem processField_skip {m : Measurement} {empty : PhaseMap} {tile : FieldTile}
    {fx fy : ℤ} {s s' : RunState} {fh' : PhaseMap}
    (h : processField m empty tile fx fy s = .ok (s', fh')) :
    s.count ≤ s'.count ∧ (s'.count = s.count → s' = s ∧ fh' = empty) := by
  have hm := foldPixels_skip (pixelList m.image_width_px m.image_height_px) (s, empty) (s', fh') h
  obtain ⟨h1, h2⟩ := hm
  refine ⟨h1, fun hc => ?_⟩
  have h3 := h2 hc
  exact ⟨congrArg Prod.fst h3, congrArg Prod.snd h3⟩

/-- Field-loop version of the skip dichotomy: if no pixel classified, the
final state is the initial state. -/
theorem runFields_skip {m : Measurement} {empty : PhaseMap} :
    ∀ {fields : List (FieldTile × ℤ × ℤ)} {s s' : RunState} {fhs : List PhaseMap},
      runFields m empty fields s = .ok (s', fhs) →
      s.count ≤ s'.count ∧ (s'.count = s.count → s' = s) := by
  intro fields
  induction fields with
  | nil =>
    intro s s' fhs h
    simp only [runFields] at h
    simp only [Except.ok.injEq, Prod.mk.injEq] at h
    rw [← h.1]
    exact ⟨le_refl _, fun _ => rfl⟩
  | cons f fs ih =>
    intro s s' fhs h
    simp only [runFields] at h
    cases hp : processField m empty f.1 f.2.1 f.2.2 s with
    | error e =>
      rw [hp] at h
      have h' : (Except.error e : Except ℕ (RunState × List PhaseMap)) = .ok (s', fhs) := h
      cases h'
    | ok b =>
      rw [hp] at h
      have h2 : (runFields m empty fs b.1 >>= fun d =>
          (pure (d.1, b.2 :: d.2) : Except ℕ (RunState × List PhaseMap))) = .ok (s', fhs) := h
      cases hr : runFields m empty fs b.1 with
      | error e =>
        rw [hr] at h2
        have h' : (Except.error e : Except ℕ (RunState × List PhaseMap)) = .ok (s', fhs) := h2
        cases h'
      | ok c =>
        rw [hr] at h2
        have h' : (Except.ok (c.1, b.2 :: c.2) : Except ℕ (RunState × List PhaseMap)) =
            .ok (s', fhs) := h2
        simp only [Except.ok.injEq, Prod.mk.injEq] at h'
        have hp2 : processField m empty f.1 f.2.1 f.2.2 s = .ok (b.1, b.2) := by rw [hp]
        have hr2 : runFields m empty fs b.1 = .ok (c.1, c.2) := by rw [hr]
        obtain ⟨hps1, hps2⟩ := processField_skip hp2
        obtain ⟨hrs1, hrs2⟩ := ih hr2
        obtain ⟨hc1, -⟩ := h'
        rw [← hc1]
        constructor
        · omega
        · intro hcc
          have hb : b.1.count = s.count := by omega
          have h1 := (hps2 hb).1
          rw [h1] at hrs2
          exact hrs2 (by omega)

/-- C4 counterexample: a run whose only field has an all-zero mask (so the
total classified count is zero) does NOT fail: the field loop returns
normally and the crop step is reached with the untouched sentinel bounding
box `(10^9, 10^9, -1, -1)`; no `EmptyClassification` error exists in the
code. -/
theorem c4_no_empty_classification_counterexample :
    runPipeline recsOne mLayout [(tileMasked, 0, 0)] =
      .ok (initState (buildPhaseMap recsOne), [buildPhaseMap recsOne]) ∧
    pipelineThumbnailBBox recsOne mLayout [(tileMasked, 0, 0)] =
      .ok (1000000000, 1000000000, -1, -1) :=
  ⟨rfl, rfl⟩

/-- C4 amended: if the total classified pixel count over all fields is
zero, the run does not fail; the pipeline proceeds and the thumbnail crop
is attempted with the degenerate sentinel bounding box
`(x_min, y_min, x_max, y_max) = (10^9, 10^9, -1, -1)`. -/
theorem c4_zero_count_reaches_crop (recs : List PhaseRec) (m : Measurement)
    (fields : List (FieldTile × ℤ × ℤ)) (s : RunState) (fhs : List PhaseMap)
    (h : runPipeline recs m fields = .ok (s, fhs)) (hz : s.count = 0) :
    pipelineThumbnailBBox recs m fields = .ok (1000000000, 1000000000, -1, -1) := by
  unfold runPipeline at h
  obtain ⟨-, h2⟩ := runFields_skip h
  have hs : s = initState (buildPhaseMap recs) := h2 (by rw [hz]; rfl)
  unfold pipelineThumbnailBBox runPipeline
  rw [h, hs]
  rfl

/-- C4 witness: instantiation of `c4_zero_count_reaches_crop` on the
single all-masked field. -/
theorem c4_zero_count_reaches_crop_witness :
    runPipeline recsOne mLayout [(tileMasked, 0, 0)] =
      .ok (initState (buildPhaseMap recsOne), [buildPhaseMap recsOne]) ∧
    (initState (buildPhaseMap recsOne)).count = 0 ∧
    pipelineThumbnailBBox recsOne mLayout [(tileMasked, 0, 0)] =
      .ok (1000000000, 1000000000, -1, -1) :=
  ⟨rfl, rfl,
   c4_zero_count_reaches_crop recsOne mLayout [(tileMasked, 0, 0)]
     (initState (buildPhaseMap recsOne)) [buildPhaseMap recsOne] rfl rfl⟩

/-!
Claim C10.
-/

/-- Incrementing an existing key raises the histogram total by exactly
one. -/
theorem bump_sumHist {pm : PhaseMap} {k : ℕ} {ph : Phase}
    (h : lookupPhase pm k = some ph) :
    sumHist (bump pm k) = sumHist pm + 1 := by
  induction pm with
  | nil => simp [lookupPhase] at h
  | cons hd tl ih =>
    obtain ⟨k', v'⟩ := hd
    by_cases hk : k = k'
    · simp only [bump, if_pos hk, sumHist, List.map_cons, List.sum_cons]
      simp [sumHist] at ih ⊢
      omega
    · simp only [lookupPhase, if_neg hk] at h
      simp only [bump, if_neg hk, sumHist, List.map_cons, List.sum_cons]
      have := ih h
      simp [sumHist] at this
      omega

/-- Conservation at one pixel: the classified count, the global histogram
total and the per-field histogram total all advance together. -/
theorem pixelStep_sums {tile : FieldTile} {fx fy : ℤ} {x y : ℕ}
    {s : RunState} {fh : PhaseMap} {s' : RunState} {fh' : PhaseMap}
    (h : pixelStep tile fx fy x y s fh = .ok (s', fh')) :
    s'.count + sumHist s.global = s.count + sumHist s'.global ∧
    s'.count + sumHist fh = s.count + sumHist fh' := by
  simp only [pixelStep] at h
  by_cases hg : tile.phases x y ≠ 0 ∧ tile.mask x y ≠ 0
  · rw [if_pos hg] at h
    cases hgl : lookupPhase s.global (tile.phases x y) with
    | none => rw [hgl] at h; simp at h
    | some ph =>
      cases hfl : lookupPhase fh (tile.phases x y) with
      | none => rw [hgl, hfl] at h; simp at h
      | some p2 =>
        rw [hgl, hfl] at h
        simp only [Except.ok.injEq, Prod.mk.injEq] at h
        obtain ⟨hs, hf⟩ := h
        rw [← hs, ← hf]
        have h1 := bump_sumHist hgl
        have h2 := bump_sumHist hfl
        constructor <;> simp only [h1, h2] <;> omega
  · rw [if_neg hg] at h
    simp only [Except.ok.injEq, Prod.mk.injEq] at h
    rw [← h.1, ← h.2]
    omega

/-- Conservation over the pixel loop of one field. -/
theorem foldPixels_sums {tile : FieldTile} {fx fy : ℤ} :
    ∀ (ps : List (ℕ × ℕ)) (a r : RunState × PhaseMap),
      ps.foldlM (fun acc p => pixelStep tile fx fy p.1 p.2 acc.1 acc.2) a = .ok r →
      r.1.count + sumHist a.1.global = a.1.count + sumHist r.1.global ∧
      r.1.count + sumHist a.2 = a.1.count + sumHist r.2 := by
  intro ps
  induction ps with
  | nil =>
    intro a r h
    simp only [List.foldlM_nil] at h
    cases h
    omega
  | cons p ps ih =>
    intro a r h
    rw [List.foldlM_cons] at h
    cases hstep : pixelStep tile fx fy p.1 p.2 a.1 a.2 with
    | error e =>
      rw [hstep] at h
      have h' : (Except.error e : Except ℕ (RunState × PhaseMap)) = .ok r := h
      cases h'
    | ok b =>
      rw [hstep] at h
      have h' : ps.foldlM (fun acc p => pixelStep tile fx fy p.1 p.2 acc.1 acc.2) b = .ok r := h
      obtain ⟨ih1, ih2⟩ := ih b r h'
      have hstep2 : pixelStep tile fx fy p.1 p.2 a.1 a.2 = .ok (b.1, b.2) := by rw [hstep]
      obtain ⟨hs1, hs2⟩ := pixelStep_sums hstep2
      omega

/-- Conservation over one field: the count gained by the field equals the
gain of the global total and also the final per-field total minus the
per-field total of the fresh `empty_phase_map` copy. -/
theorem processField_sums {m : Measurement} {empty : PhaseMap} {tile : FieldTile}
    {fx fy : ℤ} {s s' : RunState} {fh' : PhaseMap}
    (h : processField m empty tile fx fy s = .ok (s', fh')) :
    s'.count + sumHist s.global = s.count + sumHist s'.global ∧
    s'.count + sumHist empty = s.count + sumHist fh' :=
  foldPixels_sums (pixelList m.image_width_px m.image_height_px) (s, empty) (s', fh') h

/-- Conservation over the field loop. -/
theorem runFields_sums {m : Measurement} {empty : PhaseMap} :
    ∀ {fields : List (FieldTile × ℤ × ℤ)} {s s' : RunState} {fhs : List PhaseMap},
      runFields m empty fields s = .ok (s', fhs) →
      s'.count + sumHist s.global = s.count + sumHist s'.global ∧
      s'.count + fhs.length * sumHist empty = s.count + (fhs.map sumHist).sum := by
  intro fields
  induction fields with
  | nil =>
    intro s s' fhs h
    simp only [runFields] at h
    simp only [Except.ok.injEq, Prod.mk.injEq] at h
    rw [← h.1, ← h.2]
    simp
  | cons f fs ih =>
    intro s s' fhs h
    simp only [runFields] at h
    cases hp : processField m empty f.1 f.2.1 f.2.2 s with
    | error e =>
      rw [hp] at h
      have h' : (Except.error e : Except ℕ (RunState × List PhaseMap)) = .ok (s', fhs) := h
      cases h'
    | ok b =>
      rw [hp] at h
      have h2 : (runFields m empty fs b.1 >>= fun d =>
          (pure (d.1, b.2 :: d.2) : Except ℕ (RunState × List PhaseMap))) = .ok (s', fhs) := h
      cases hr : runFields m empty fs b.1 with
      | error e =>
        rw [hr] at h2
        have h' : (Except.error e : Except ℕ (RunState × List PhaseMap)) = .ok (s', fhs) := h2
        cases h'
      | ok c =>
        rw [hr] at h2
        have h' : (Except.ok (c.1, b.2 :: c.2) : Except ℕ (RunState × List PhaseMap)) =
            .ok (s', fhs) := h2
        simp only [Except.ok.injEq, Prod.mk.injEq] at h'
        have hp2 : processField m empty f.1 f.2.1 f.2.2 s = .ok (b.1, b.2) := by rw [hp]
        have hr2 : runFields m empty fs b.1 = .ok (c.1, c.2) := by rw [hr]
        obtain ⟨hps1, hps2⟩ := processField_sums hp2
        obtain ⟨hih1, hih2⟩ := ih hr2
        obtain ⟨hc1, hc2⟩ := h'
        rw [← hc1, ← hc2]
        simp only [List.length_cons, List.map_cons, List.sum_cons, Nat.succ_mul]
        omega

/-- Overwriting insertion bounds the histogram total by the old total plus
the inserted histogram. -/
theorem sumHist_insertOverwrite_le (pm : PhaseMap) (k : ℕ) (v : Phase) :
    sumHist (insertOverwrite pm k v) ≤ sumHist pm + v.histogram := by
  induction pm with
  | nil => simp [insertOverwrite, sumHist]
  | cons hd tl ih =>
    obtain ⟨k', v'⟩ := hd
    by_cases h1 : k < k'
    · simp [insertOverwrite, h1, sumHist]
      omega
    · by_cases h2 : k = k'
      · simp [insertOverwrite, h1, h2, sumHist]
        omega
      · simp only [insertOverwrite, if_neg h1, if_neg h2, sumHist, List.map_cons, List.sum_cons]
        simp only [sumHist] at ih
        omega

/-- The freshly built catalog has all histograms zero. -/
theorem sumHist_buildPhaseMap (recs : List PhaseRec) : sumHist (buildPhaseMap recs) = 0 := by
  suffices h : ∀ pm : PhaseMap, sumHist pm = 0 →
      sumHist (recs.foldl
        (fun pm r => if r.background then pm else insertOverwrite pm r.id (phaseOf r)) pm) = 0 by
    exact h [] rfl
  induction recs with
  | nil => intro pm hpm; simpa using hpm
  | cons r rs ih =>
    intro pm hpm
    simp only [List.foldl_cons]
    apply ih
    by_cases hb : r.background
    · rw [if_pos hb]; exact hpm
    · rw [if_neg hb]
      have h1 := sumHist_insertOverwrite_le pm r.id (phaseOf r)
      have h2 : (phaseOf r).histogram = 0 := rfl
      omega

/-- C10: after compositing all fields, the total classified pixel count
equals the sum of the global histogram over all phases, and also equals
the sum over all fields of the totals of their per-field histograms:
every classified pixel increments the three counters together. -/
theorem c10_histogram_conservation (recs : List PhaseRec) (m : Measurement)
    (fields : List (FieldTile × ℤ × ℤ)) (s : RunState) (fhs : List PhaseMap)
    (h : runPipeline recs m fields = .ok (s, fhs)) :
    s.count = sumHist s.global ∧ s.count = (fhs.map sumHist).sum := by
  unfold runPipeline at h
  obtain ⟨h1, h2⟩ := runFields_sums h
  have hz : sumHist (buildPhaseMap recs) = 0 := sumHist_buildPhaseMap recs
  simp only [initState, hz] at h1 h2
  constructor
  · omega
  · have : fhs.length * sumHist (buildPhaseMap recs) = 0 := by rw [hz]; omega
    omega

/-- C10 witness: instantiation of `c10_histogram_conservation` on a
single-field single-pixel run that classifies one pixel. -/
theorem c10_histogram_conservation_witness :
    runPipeline recsOne mTiny [(tileOne, 0, 0)] = .ok (stateOne, [fieldHistOne]) ∧
    stateOne.count = sumHist stateOne.global ∧
    stateOne.count = ([fieldHistOne].map sumHist).sum :=
  ⟨rfl,
   (c10_histogram_conservation recsOne mTiny [(tileOne, 0, 0)] stateOne [fieldHistOne] rfl).1,
   (c10_histogram_conservation recsOne mTiny [(tileOne, 0, 0)] stateOne [fieldHistOne] rfl).2⟩

/-!
Claim C6.
-/

/-- Stability of ordered insertion for the legend: inserting an element
whose id is below every id in a list that is sorted by descending
histogram and already in strict legend order keeps strict legend order. -/
theorem orderedInsert_pairwise_legend (x : ℕ × Phase) :
    ∀ L : List (ℕ × Phase), L.Sorted legendRel → L.Pairwise legendOrder →
      (∀ y ∈ L, x.1 < y.1) →
      (List.orderedInsert legendRel x L).Pairwise legendOrder := by
  intro L
  induction L with
  | nil =>
    intro _ _ _
    simp [List.orderedInsert]
  | cons y ys ih =>
    intro hs hp hid
    by_cases hr : legendRel x y
    · simp only [List.orderedInsert, if_pos hr]
      refine List.Pairwise.cons ?_ hp
      intro z hz
      have hzle : z.2.histogram ≤ x.2.histogram := by
        rcases List.mem_cons.mp hz with rfl | hz'
        · exact hr
        · have h1 : legendRel y z := (List.sorted_cons.mp hs).1 z hz'
          exact le_trans (h1 : z.2.histogram ≤ y.2.histogram)
            (hr : y.2.histogram ≤ x.2.histogram)
      rcases lt_or_eq_of_le hzle with hlt | heq
      · exact Or.inl hlt
      · exact Or.inr ⟨heq.symm, hid z hz⟩
    · simp only [List.orderedInsert, if_neg hr]
      refine List.Pairwise.cons ?_ (ih (List.sorted_cons.mp hs).2
        (List.pairwise_cons.mp hp).2 (fun z hz => hid z (List.mem_cons_of_mem y hz)))
      intro z hz
      have hmem := List.mem_cons.mp ((List.perm_orderedInsert legendRel x ys).mem_iff.mp hz)
      rcases hmem with rfl | hz'
      · exact Or.inl (not_le.mp hr)
      · exact (List.pairwise_cons.mp hp).1 z hz'

/-- Stability of the legend sort: on input whose ids strictly ascend, the
stable descending-histogram sort yields the strict legend order (histogram
descending, ties by ascending id). -/
theorem insertionSort_pairwise_legend :
    ∀ l : List (ℕ × Phase), l.Pairwise (fun a b => a.1 < b.1) →
      (List.insertionSort legendRel l).Pairwise legendOrder := by
  intro l
  induction l with
  | nil =>
    intro _
    simp [List.insertionSort]
  | cons x l ih =>
    intro h
    simp only [List.insertionSort]
    apply orderedInsert_pairwise_legend
    · exact List.sorted_insertionSort legendRel l
    · exact ih (List.pairwise_cons.mp h).2
    · intro y hy
      exact (List.pairwise_cons.mp h).1 y ((List.perm_insertionSort legendRel l).mem_iff.mp hy)

/-- C6 counterexample: a catalog whose phase ids 10, 20, 200 occupy the
distinct hash slots 2, 4, 0 of the CPython 2 dict table iterates in the
order 200, 10, 20; with the histograms of ids 10 and 200 tied, the stable
descending sort leaves id 200 BEFORE id 10 in the legend, so the tie is
not broken by ascending phase id. -/
theorem c6_legend_order_counterexample :
    legendPhasesPyDict pmHash =
      [(20, ⟨"Quartz", (2, 2, 2), 0, 7⟩), (200, ⟨"Rutile", (3, 3, 3), 0, 5⟩),
       (10, ⟨"Kaolinite", (1, 1, 1), 0, 5⟩)] ∧
    ¬ (legendPhasesPyDict pmHash).Pairwise legendOrder := by
  constructor
  · rfl
  · decide

/-- C6 amended: the legend list contains exactly the phases with nonzero
global histogram (it is a permutation of the nonzero filter of the
catalog) and is non-increasing in pixel count; ties are left in the
dict's hash-slot iteration order, which coincides with ascending phase id
when every id is below the dict table size — here stated for distinct ids
all below the initial table size 8 — but not in general (see the
counterexample).  Re-running on the same input yields the identical
order, immediately, since the model is a pure function of its input. -/
theorem c6_legend_order_amended (entries : PhaseMap)
    (hdup : entries.Pairwise (fun a b => a.1 ≠ b.1))
    (h8 : ∀ kv ∈ entries, kv.1 < 8) :
    (legendPhasesPyDict entries).Perm (entries.filter (fun kv => kv.2.histogram ≠ 0)) ∧
    (legendPhasesPyDict entries).Sorted legendRel ∧
    (legendPhasesPyDict entries).Pairwise legendOrder := by
  have hperm : (pyDictItemsSmall entries).Perm entries :=
    List.perm_insertionSort slotRel entries
  refine ⟨?_, ?_, ?_⟩
  · exact (List.perm_insertionSort legendRel _).trans
      (hperm.filter (fun kv => decide (kv.2.histogram ≠ 0)))
  · exact List.sorted_insertionSort legendRel _
  · have hsorted : (pyDictItemsSmall entries).Pairwise slotRel :=
      List.sorted_insertionSort slotRel entries
    have hne : (pyDictItemsSmall entries).Pairwise (fun a b => a.1 ≠ b.1) :=
      (hperm.pairwise_iff (fun hab => Ne.symm hab)).mpr hdup
    have h8m : ∀ kv ∈ pyDictItemsSmall entries, kv.1 < 8 :=
      fun kv hkv => h8 kv (hperm.mem_iff.mp hkv)
    have hlt : (pyDictItemsSmall entries).Pairwise (fun a b => a.1 < b.1) := by
      refine List.Pairwise.imp_of_mem ?_ (hsorted.and hne)
      intro a b ha hb hab
      obtain ⟨hle, hne2⟩ := hab
      have e1 : pySlot a.1 = a.1 := Nat.mod_eq_of_lt (h8m a ha)
      have e2 : pySlot b.1 = b.1 := Nat.mod_eq_of_lt (h8m b hb)
      have hle2 : a.1 ≤ b.1 := by
        have hle3 : pySlot a.1 ≤ pySlot b.1 := hle
        rw [e1, e2] at hle3
        exact hle3
      exact lt_of_le_of_ne hle2 hne2
    exact insertionSort_pairwise_legend _
      (List.Pairwise.sublist (List.filter_sublist _) hlt)

/-- C6 witness: instantiation of `c6_legend_order_amended` on a concrete
catalog with distinct ids 1, 2, 3, 4 (all below the table size 8), a
histogram tie between ids 1 and 3 and a zero-histogram entry. -/
theorem c6_legend_order_amended_witness :
    pmLegend.Pairwise (fun a b => a.1 ≠ b.1) ∧ (∀ kv ∈ pmLegend, kv.1 < 8) ∧
    ((legendPhasesPyDict pmLegend).Perm (pmLegend.filter (fun kv => kv.2.histogram ≠ 0)) ∧
     (legendPhasesPyDict pmLegend).Sorted legendRel ∧
     (legendPhasesPyDict pmLegend).Pairwise legendOrder) :=
  ⟨by decide, by decide, c6_legend_order_amended pmLegend (by decide) (by decide)⟩
